import Mathlib

/-!
# Verification of the Medadmit monotone-spline calibration core

Shallow embedding of the monotone I-spline fitting engine
(`src/python/spline_fitting.py`), the inline spline evaluator of
`src/python/calibrate_schools.py`, and the spline-related steps of the
two-factor calibrator (`src/python/calibrate_C.py`).

Floating-point values are modelled as elements of a linear ordered field
`K` (instantiated at `ℚ` for executable witnesses and at `ℝ` for the
analytic claims).  `scipy.interpolate.BSpline` evaluation with
`extrapolate=True` is modelled by the Cox-de Boor recursion seeded on the
knot span selected exactly the way scipy's `find_interval` does: the
span index is clamped into the base interval, and the polynomial piece
of that span is evaluated, which is scipy's extrapolation semantics and
also its semantics at `x = x_max` (left-continuous limit).
-/

namespace Medadmit

variable {K : Type} [LinearOrderedField K]

/-- Model of `np.linspace(a, b, n)`: `n` evenly spaced samples
`a + i*(b-a)/(n-1)`. -/
def linspace (a b : K) (n : ℕ) : List K :=
  (List.range n).map (fun i : ℕ => a + (b - a) * (i : K) / ((n : K) - 1))

/-- Interior-knot count of `create_bspline_basis`
(`n_interior = n_basis - degree - 1`, clamped at `0`); natural
subtraction models the clamp `if n_interior < 0: n_interior = 0`. -/
def nInteriorOf (nBasis degree : ℕ) : ℕ := nBasis - degree - 1

/-- Knot sequence built by `create_bspline_basis`:
`degree+1` copies of `x_min`, the interior part of
`np.linspace(x_min, x_max, n_interior + 2)` (endpoints stripped by
`[1:-1]`), then `degree+1` copies of `x_max`. -/
def bsplineKnots (nBasis degree : ℕ) (xmin xmax : K) : List K :=
  List.replicate (degree + 1) xmin
    ++ ((linspace xmin xmax (nInteriorOf nBasis degree + 2)).drop 1).dropLast
    ++ List.replicate (degree + 1) xmax

/-- Knot access as a total function; indices beyond the stored array
return `x_max` (the last stored knot), so out-of-range knot spans are
empty and contribute nothing to the recursion. -/
def knotFun (nBasis degree : ℕ) (xmin xmax : K) : ℕ → K :=
  fun j => (bsplineKnots nBasis degree xmin xmax).getD j xmax

/-- Knot-span index used by scipy's `find_interval` for a spline with
`ncoef` coefficients and the given degree: the unique `m` in
`[degree, ncoef-1]` with `t m ≤ x < t (m+1)`, clamped to `degree` below
`t degree` and to `ncoef - 1` at or above `t (ncoef)` (extrapolation). -/
def spanIdx (t : ℕ → K) (degree ncoef : ℕ) (x : K) : ℕ :=
  degree +
    ((List.range (ncoef - 1 - degree)).filter
      (fun j => decide (t (degree + 1 + j) ≤ x))).length

/-- Cox-de Boor recursion seeded on span `m`: `coxN t m p i x` is the
polynomial piece on span `[t m, t (m+1))` of the `i`-th B-spline of
degree `p` over knots `t`, evaluated at `x`.  A term whose knot-span
width is zero is dropped (the `0/0 := 0` convention of de Boor's
algorithm). -/
def coxN (t : ℕ → K) (m : ℕ) : ℕ → ℕ → K → K
  | 0, i, _ => if i = m then 1 else 0
  | (p + 1), i, x =>
      (if t (i + p + 1) = t i then 0
        else (x - t i) / (t (i + p + 1) - t i) * coxN t m p i x)
      + (if t (i + p + 2) = t (i + 1) then 0
        else (t (i + p + 2) - x) / (t (i + p + 2) - t (i + 1)) * coxN t m p (i + 1) x)

/-- Argument validation performed by `scipy.interpolate.BSpline.__init__`
on the arrays `create_bspline_basis` passes it: with `n = len(t) - k - 1`
the constructor raises `ValueError` unless `n >= k + 1` ("Need at least
2(k+1) knots") and `len(c) >= n` ("Knots, coefficients and degree are
inconsistent").  `create_bspline_basis` passes coefficient vectors of
length `nBasis` over the knot array `bsplineKnots`; when this predicate
fails, the Python call raises instead of producing a basis matrix. -/
def scipyBSplineOk (nBasis degree : ℕ) (a b : K) : Prop :=
  degree + 1 ≤ (bsplineKnots nBasis degree a b).length - degree - 1 ∧
  (bsplineKnots nBasis degree a b).length - degree - 1 ≤ nBasis

/-- `create_ispline_basis` builds the B-spline family with `nBasis + 1`
functions, so its `BSpline` constructor calls succeed exactly when that
family passes scipy's validation; otherwise `create_ispline_basis`
raises and returns no basis matrix. -/
def isplineConstructionOk (nBasis degree : ℕ) (a b : K) : Prop :=
  scipyBSplineOk (nBasis + 1) degree a b

/-- Entry `(x, i)` of the B-spline basis matrix returned by
`create_bspline_basis(x, nBasis, degree, xmin, xmax)`.  The value is
meaningful only for configurations accepted by `scipyBSplineOk`; for
rejected configurations the Python call raises inside the `BSpline`
constructor and this total function has no program counterpart. -/
def bsplineBasis (nBasis degree : ℕ) (xmin xmax : K) (i : ℕ) (x : K) : K :=
  coxN (knotFun nBasis degree xmin xmax)
    (spanIdx (knotFun nBasis degree xmin xmax) degree nBasis x) degree i x

/-- Un-normalized I-spline column `j` of `create_ispline_basis`: the
B-spline basis with `nBasis + 1` functions is built, its first column is
dropped, and the reverse cumulative sum is taken, so column `j`
(`0`-based) is the sum of the original B-spline columns `j+1 .. nBasis`. -/
def isplineRaw (nBasis degree : ℕ) (xmin xmax : K) (j : ℕ) (x : K) : K :=
  ∑ i ∈ Finset.Icc (j + 1) nBasis, bsplineBasis (nBasis + 1) degree xmin xmax i x

/-- Normalization constant of I-spline column `j`: its un-normalized
value at `x_max`, with zero replaced by `1`
(`norm_constants[norm_constants == 0] = 1`). -/
def normConst (nBasis degree : ℕ) (xmin xmax : K) (j : ℕ) : K :=
  if isplineRaw nBasis degree xmin xmax j xmax = 0 then 1
  else isplineRaw nBasis degree xmin xmax j xmax

/-- Entry `(x, j)` of the normalized I-spline basis matrix returned by
`create_ispline_basis(x, nBasis, degree, xmin, xmax)`. -/
def isplineBasis (nBasis degree : ℕ) (xmin xmax : K) (j : ℕ) (x : K) : K :=
  isplineRaw nBasis degree xmin xmax j x / normConst nBasis degree xmin xmax j

/-- Fitted-curve parameter record serialized by `fit_monotone_spline`
(the `params` dict). -/
structure SplineParams (K : Type) where
  coefficients : List K
  intercept : K
  nBasis : ℕ
  degree : ℕ
  xMin : K
  xMax : K
  knots : List K

/-- Model of `evaluate_monotone_spline(x, params)` at a single point:
`intercept + basis @ coef` with the I-spline basis rebuilt from the
configuration stored in `params` (the stored knots are not consulted). -/
def evalMonotoneSpline (p : SplineParams K) (x : K) : K :=
  p.intercept + ∑ j ∈ Finset.range p.nBasis,
    p.coefficients.getD j 0 * isplineBasis p.nBasis p.degree p.xMin p.xMax j x

/-- Weight renormalization in `fit_monotone_spline`
(`weights = weights / weights.sum()`).  There is no guard on the sum;
in this field model division by a zero sum yields `0` (IEEE floats yield
`NaN`), and in neither case is an error raised. -/
def normalizeWeights (w : List K) : List K := w.map (fun wi => wi / w.sum)

/-- Knot sequence recorded in the fitted parameters: `create_ispline_basis`
obtains it from `create_bspline_basis` called with `n_basis + 1` basis
functions. -/
def fitKnots (nBasis degree : ℕ) (xmin xmax : K) : List K :=
  bsplineKnots (nBasis + 1) degree xmin xmax

/-- Closed-form intercept used when an anchor point is supplied:
`intercept = y_anchor - (basis_anchor @ coef)[0]`. -/
def anchoredIntercept (nBasis degree : ℕ) (xmin xmax xAnchor yAnchor : K)
    (coef : List K) : K :=
  yAnchor - ∑ j ∈ Finset.range nBasis,
    coef.getD j 0 * isplineBasis nBasis degree xmin xmax j xAnchor

/-- Parameter record assembled at the end of `fit_monotone_spline`. -/
def fitParams (nBasis degree : ℕ) (xmin xmax : K) (coef : List K)
    (intercept : K) : SplineParams K :=
  { coefficients := coef
    intercept := intercept
    nBasis := nBasis
    degree := degree
    xMin := xmin
    xMax := xmax
    knots := fitKnots nBasis degree xmin xmax }

/-- Predictions `pred = intercept + basis @ coef` computed by
`fit_monotone_spline` for its diagnostics. -/
def fitPredictions (nBasis degree : ℕ) (xmin xmax : K) (coef : List K)
    (intercept : K) (xs : List K) : List K :=
  xs.map (fun xi => intercept + ∑ j ∈ Finset.range nBasis,
    coef.getD j 0 * isplineBasis nBasis degree xmin xmax j xi)

/-- Residuals `y - pred`. -/
def residualList (ys preds : List K) : List K :=
  List.zipWith (fun y p => y - p) ys preds

/-- Weighted sum of squared residuals `np.sum(weights * residuals ** 2)`. -/
def weightedSqSum (w res : List K) : K :=
  (List.zipWith (fun wi ri => wi * ri ^ 2) w res).sum

/-- The `rmse` diagnostic of `fit_monotone_spline`:
`np.sqrt(np.mean(residuals ** 2))`. -/
noncomputable def fitRMSE (res : List ℝ) : ℝ :=
  Real.sqrt ((res.map (fun r => r ^ 2)).sum / (res.length : ℝ))

/-- The softplus reparameterization `np.log1p(np.exp(raw))` applied to
each raw optimizer parameter to produce a coefficient. -/
noncomputable def softplus (tv : ℝ) : ℝ := Real.log (1 + Real.exp tv)

/-- The probability clamp `np.clip(p, 0.01, 0.99)` of `calibrate_splines`. -/
def clipProb (p : K) : K := min (max p (1 / 100)) (99 / 100)

/-- The log-odds transform `np.log(p / (1 - p))` of `calibrate_splines`. -/
noncomputable def logOdds (p : ℝ) : ℝ := Real.log (p / (1 - p))

/-- Final re-anchoring step of `calibrate_splines`: the curve's own value
at the anchor input is subtracted from its intercept; every other field
is kept. -/
def reanchorIntercept (p : SplineParams K) (x0 : K) : SplineParams K :=
  { p with intercept := p.intercept - evalMonotoneSpline p x0 }

/-- `GPA_ANCHOR = 3.75` from `calibrate_C.py`. -/
def gpaAnchor : K := 15 / 4

/-- `MCAT_ANCHOR = 512` from `calibrate_C.py`. -/
def mcatAnchor : K := 512

/-! ### Inline evaluator of `calibrate_schools.py`

`calibrate_schools.py` re-implements the I-spline basis construction
inline ("simplified version for evaluation"); it computes
`n_interior = n_basis - degree` directly and then evaluates a B-spline
family with `n_basis + 1` functions over those knots. -/

/-- Interior-knot count of the inline construction
(`n_interior = n_basis - degree`, clamped at `0`). -/
def csNInterior (nBasis degree : ℕ) : ℕ := nBasis - degree

/-- Knot sequence of the inline construction in `calibrate_schools.py`. -/
def csKnots (nBasis degree : ℕ) (xmin xmax : K) : List K :=
  List.replicate (degree + 1) xmin
    ++ ((linspace xmin xmax (csNInterior nBasis degree + 2)).drop 1).dropLast
    ++ List.replicate (degree + 1) xmax

/-- Total knot access for the inline construction. -/
def csKnotFun (nBasis degree : ℕ) (xmin xmax : K) : ℕ → K :=
  fun j => (csKnots nBasis degree xmin xmax).getD j xmax

/-- Entry `(x, i)` of `eval_bspline_basis(x, n_basis + 1)` in
`calibrate_schools.py` (a family of `n_basis + 1` B-splines over the
inline knots). -/
def csBsplineBasis (nBasis degree : ℕ) (xmin xmax : K) (i : ℕ) (x : K) : K :=
  coxN (csKnotFun nBasis degree xmin xmax)
    (spanIdx (csKnotFun nBasis degree xmin xmax) degree (nBasis + 1) x) degree i x

/-- Un-normalized inline I-spline column `j` (drop first column, reverse
cumulative sum). -/
def csIsplineRaw (nBasis degree : ℕ) (xmin xmax : K) (j : ℕ) (x : K) : K :=
  ∑ i ∈ Finset.Icc (j + 1) nBasis, csBsplineBasis nBasis degree xmin xmax i x

/-- Inline normalization constant at `x_max` with the zero-divisor guard. -/
def csNormConst (nBasis degree : ℕ) (xmin xmax : K) (j : ℕ) : K :=
  if csIsplineRaw nBasis degree xmin xmax j xmax = 0 then 1
  else csIsplineRaw nBasis degree xmin xmax j xmax

/-- Entry `(x, j)` of the inline normalized I-spline basis. -/
def csIsplineBasis (nBasis degree : ℕ) (xmin xmax : K) (j : ℕ) (x : K) : K :=
  csIsplineRaw nBasis degree xmin xmax j x / csNormConst nBasis degree xmin xmax j

/-- The ratio of the de Boor convex-combination step at level `L`. -/
def omg (t : ℕ → K) (L i : ℕ) (x : K) : K := (x - t i) / (t (i + L) - t i)

/-- Model of `evaluate_spline(x, params)` in `calibrate_schools.py`:
`(intercept + basis @ coef)[0]` at a single point, via the inline basis. -/
def evaluateSpline (x : K) (p : SplineParams K) : K :=
  p.intercept + ∑ j ∈ Finset.range p.nBasis,
    p.coefficients.getD j 0 * csIsplineBasis p.nBasis p.degree p.xMin p.xMax j x

/-! ### Unfolding lemmas for the Cox-de Boor recursion -/

lemma coxN_zero_eval (t : ℕ → K) (m i : ℕ) (x : K) :
    coxN t m 0 i x = if i = m then 1 else 0 := rfl

lemma coxN_succ_eval (t : ℕ → K) (m p i : ℕ) (x : K) :
    coxN t m (p + 1) i x
      = (if t (i + p + 1) = t i then 0
          else (x - t i) / (t (i + p + 1) - t i) * coxN t m p i x)
      + (if t (i + p + 2) = t (i + 1) then 0
          else (t (i + p + 2) - x) / (t (i + p + 2) - t (i + 1)) * coxN t m p (i + 1) x) := rfl

lemma coxN_one_eval (t : ℕ → K) (m i : ℕ) (x : K) :
    coxN t m 1 i x
      = (if t (i + 1) = t i then 0
          else (x - t i) / (t (i + 1) - t i) * coxN t m 0 i x)
      + (if t (i + 2) = t (i + 1) then 0
          else (t (i + 2) - x) / (t (i + 2) - t (i + 1)) * coxN t m 0 (i + 1) x) := rfl

lemma coxN_two_eval (t : ℕ → K) (m i : ℕ) (x : K) :
    coxN t m 2 i x
      = (if t (i + 2) = t i then 0
          else (x - t i) / (t (i + 2) - t i) * coxN t m 1 i x)
      + (if t (i + 3) = t (i + 1) then 0
          else (t (i + 3) - x) / (t (i + 3) - t (i + 1)) * coxN t m 1 (i + 1) x) := rfl

lemma coxN_three_eval (t : ℕ → K) (m i : ℕ) (x : K) :
    coxN t m 3 i x
      = (if t (i + 3) = t i then 0
          else (x - t i) / (t (i + 3) - t i) * coxN t m 2 i x)
      + (if t (i + 4) = t (i + 1) then 0
          else (t (i + 4) - x) / (t (i + 4) - t (i + 1)) * coxN t m 2 (i + 1) x) := rfl

/-! ### Equivalence of the two basis constructions (claim C9) -/

lemma csNInterior_eq (nBasis degree : ℕ) :
    csNInterior nBasis degree = nInteriorOf (nBasis + 1) degree := by
  unfold csNInterior nInteriorOf; omega

lemma csKnots_eq (nBasis degree : ℕ) (a b : K) :
    csKnots nBasis degree a b = bsplineKnots (nBasis + 1) degree a b := by
  unfold csKnots bsplineKnots; rw [csNInterior_eq]

lemma csKnotFun_eq (nBasis degree : ℕ) (a b : K) :
    csKnotFun nBasis degree a b = knotFun (nBasis + 1) degree a b := by
  funext j; unfold csKnotFun knotFun; rw [csKnots_eq]

lemma csBsplineBasis_eq (nBasis degree : ℕ) (a b : K) (i : ℕ) (x : K) :
    csBsplineBasis nBasis degree a b i x = bsplineBasis (nBasis + 1) degree a b i x := by
  unfold csBsplineBasis bsplineBasis; rw [csKnotFun_eq]

lemma csIsplineBasis_eq (nBasis degree : ℕ) (a b : K) (j : ℕ) (x : K) :
    csIsplineBasis nBasis degree a b j x = isplineBasis nBasis degree a b j x := by
  have hraw : ∀ y : K, csIsplineRaw nBasis degree a b j y = isplineRaw nBasis degree a b j y := by
    intro y
    unfold csIsplineRaw isplineRaw
    exact Finset.sum_congr rfl (fun i _ => csBsplineBasis_eq nBasis degree a b i y)
  unfold csIsplineBasis csNormConst isplineBasis normConst
  rw [hraw, hraw]

/-- C9: for every fitted-parameter record and every evaluation point, the
inline evaluator `evaluate_spline` of `calibrate_schools.py` returns the
same value as `evaluate_monotone_spline` of `spline_fitting.py`: the two
independently implemented basis constructions (knot placement, drop-first
column, reverse cumulative sum, normalization at `x_max`) coincide. -/
theorem C9_evaluator_equivalence (p : SplineParams ℝ) (x : ℝ) :
    evaluateSpline x p = evalMonotoneSpline p x := by
  unfold evaluateSpline evalMonotoneSpline
  exact congrArg (p.intercept + ·)
    (Finset.sum_congr rfl (fun j _ => by rw [csIsplineBasis_eq]))

/-! ### Anchor exactness (claim C2) -/

/-- C2: when an anchor `(x0, y0)` is supplied, the intercept is
`y0 - Σ coefficients·basis(x0)` in closed form, so the returned curve
evaluates to exactly `y0` at `x0`, whatever coefficient vector the
optimizer produced. -/
theorem C2_anchor_exactness (nBasis degree : ℕ) (a b x0 y0 : ℝ) (coef : List ℝ) :
    evalMonotoneSpline
      (fitParams nBasis degree a b coef (anchoredIntercept nBasis degree a b x0 y0 coef)) x0
      = y0 := by
  unfold evalMonotoneSpline fitParams anchoredIntercept
  ring

/-! ### Re-anchoring (claims C3 and C10) -/

lemma eval_reanchor_self (p : SplineParams K) (x0 : K) :
    evalMonotoneSpline (reanchorIntercept p x0) x0 = 0 := by
  simp only [evalMonotoneSpline, reanchorIntercept]
  ring

/-- C3: after the final re-anchoring step of `calibrate_splines` the GPA
curve evaluates to exactly `0` at `GPA_ANCHOR` and the MCAT curve to
exactly `0` at `MCAT_ANCHOR`, so their sum is `0`, in particular within
`1e-6`. -/
theorem C3_zero_at_anchor (g m : SplineParams ℝ) :
    evalMonotoneSpline (reanchorIntercept g gpaAnchor) gpaAnchor = 0 ∧
    evalMonotoneSpline (reanchorIntercept m mcatAnchor) mcatAnchor = 0 ∧
    |evalMonotoneSpline (reanchorIntercept g gpaAnchor) gpaAnchor +
      evalMonotoneSpline (reanchorIntercept m mcatAnchor) mcatAnchor| ≤ 1e-6 := by
  refine ⟨eval_reanchor_self g gpaAnchor, eval_reanchor_self m mcatAnchor, ?_⟩
  rw [eval_reanchor_self, eval_reanchor_self]
  norm_num

/-- C10: the re-anchoring step rewrites only the `intercept` field; all
other parameter fields are unchanged, and consequently the difference
`evaluate(x2) - evaluate(x1)` is identical before and after re-anchoring
(the curve is shifted vertically, its shape preserved exactly). -/
theorem C10_reanchor_frame (p : SplineParams ℝ) (x0 : ℝ) :
    (reanchorIntercept p x0).coefficients = p.coefficients ∧
    (reanchorIntercept p x0).nBasis = p.nBasis ∧
    (reanchorIntercept p x0).degree = p.degree ∧
    (reanchorIntercept p x0).xMin = p.xMin ∧
    (reanchorIntercept p x0).xMax = p.xMax ∧
    (reanchorIntercept p x0).knots = p.knots ∧
    ∀ x1 x2 : ℝ,
      evalMonotoneSpline (reanchorIntercept p x0) x2
          - evalMonotoneSpline (reanchorIntercept p x0) x1
        = evalMonotoneSpline p x2 - evalMonotoneSpline p x1 := by
  refine ⟨rfl, rfl, rfl, rfl, rfl, rfl, fun x1 x2 => ?_⟩
  unfold evalMonotoneSpline reanchorIntercept
  ring

/-! ### All-zero weights (claim C5) -/

/-- C5: `fit_monotone_spline` renormalizes the weights with
`weights / weights.sum()` and never raises a configuration error: with
all-zero weights the division by the zero sum is performed regardless
(yielding `NaN` under IEEE arithmetic, `0` in this field model), the
resulting "normalized" weights do not sum to `1`, and the fit proceeds. -/
theorem C5_zero_weights_no_error :
    normalizeWeights [(0 : ℚ), 0] = [0, 0] ∧
    (normalizeWeights [(0 : ℚ), 0]).sum ≠ 1 := by
  constructor
  · simp [normalizeWeights]
  · simp [normalizeWeights]

/-! ### Counterexamples to the claimed knot layout and basis boundary
identity (claims C7 and C4) -/

/-- C7 counterexample: with the default configuration
`n_basis = 6, degree = 3` the knot sequence recorded by
`fit_monotone_spline` has `2*(degree+1) + 3 = 11` entries, not the
`2*(degree+1) + max(n_basis - degree - 1, 0) = 10` the claim predicts:
the recorded sequence comes from the B-spline family with `n_basis + 1`
functions, so it carries `max(n_basis - degree, 0)` interior knots. -/
theorem C7_counterexample :
    (fitKnots 6 3 (0 : ℚ) 1).length = 11 ∧
    (fitKnots 6 3 (0 : ℚ) 1).length ≠ 2 * (3 + 1) + (6 - 3 - 1) := by
  have h : (fitKnots 6 3 (0 : ℚ) 1).length = 11 := by
    simp [fitKnots, bsplineKnots, nInteriorOf, linspace, List.range_succ]
  exact ⟨h, by rw [h]; norm_num⟩

/-- C4 counterexample: the claim quantifies over every configuration
with `n_basis ≥ 1, degree ≥ 0, x_min < x_max`, but at
`n_basis = 1, degree = 3` on `[0, 1]` the construction produces no
basis matrix at all: `create_ispline_basis` builds the B-spline family
with `n_basis + 1 = 2` coefficients over the `8`-entry knot array, and
scipy's `BSpline` constructor rejects it
(`len(c) = 2 < len(t) - k - 1 = 4` raises `ValueError`), so no column
exists that could evaluate to `1.0` at `x_max`. -/
theorem C4_counterexample :
    (1 : ℕ) ≥ 1 ∧ (0 : ℚ) < 1 ∧ ¬ isplineConstructionOk 1 3 (0 : ℚ) 1 := by
  refine ⟨le_rfl, by norm_num, ?_⟩
  have hlen : (bsplineKnots 2 3 (0 : ℚ) 1).length = 8 := by
    simp [bsplineKnots, nInteriorOf, linspace, List.range_succ]
  intro h
  obtain ⟨-, h2⟩ := h
  rw [hlen] at h2
  omega

/-! ### Probability clamping and log-odds bounds (claim C6) -/

lemma clipProb_mem (p : ℝ) : (1 : ℝ) / 100 ≤ clipProb p ∧ clipProb p ≤ 99 / 100 := by
  unfold clipProb
  constructor
  · exact le_min (le_max_right p _) (by norm_num)
  · exact min_le_right _ _

/-- C6: every observed probability in `[0, 1]` (including exactly `0`
and exactly `1`) is clamped to `[0.01, 0.99]` before the log-odds
transform, so the computed log-odds is a (finite) real number lying in
`[log(0.01/0.99), log(0.99/0.01)]`. -/
theorem C6_logodds_bounded (p : ℝ) (h0 : 0 ≤ p) (h1 : p ≤ 1) :
    Real.log (0.01 / 0.99) ≤ logOdds (clipProb p) ∧
    logOdds (clipProb p) ≤ Real.log (0.99 / 0.01) := by
  obtain ⟨hlo, hhi⟩ := clipProb_mem p
  have hden : (0 : ℝ) < 1 - clipProb p := by linarith
  have hpos : (0 : ℝ) < clipProb p := by linarith
  have hlow : (0.01 : ℝ) / 0.99 ≤ clipProb p / (1 - clipProb p) := by
    rw [div_le_div_iff (by norm_num) hden]
    nlinarith
  have hhigh : clipProb p / (1 - clipProb p) ≤ (0.99 : ℝ) / 0.01 := by
    rw [div_le_div_iff hden (by norm_num)]
    nlinarith
  constructor
  · exact Real.log_le_log (by norm_num) hlow
  · exact Real.log_le_log (by positivity) hhigh

/-- Witness for C6 at the degenerate input `p = 0`. -/
theorem C6_logodds_bounded_witness :
    (0 : ℝ) ≤ 0 ∧ (0 : ℝ) ≤ 1 ∧
    (Real.log (0.01 / 0.99) ≤ logOdds (clipProb 0) ∧
      logOdds (clipProb 0) ≤ Real.log (0.99 / 0.01)) :=
  ⟨le_refl 0, by norm_num, C6_logodds_bounded 0 (le_refl 0) (by norm_num)⟩

/-! ### The rmse diagnostic (claim C8) -/

lemma cs8_knots : bsplineKnots 2 0 (0 : ℝ) 1 = [0, 1 / 2, 1] := by
  norm_num [bsplineKnots, nInteriorOf, linspace, List.range_succ, List.replicate_succ]

lemma cs8_basis_zero : isplineBasis 1 0 (0 : ℝ) 1 0 0 = 0 := by
  have hraw : isplineRaw 1 0 (0 : ℝ) 1 0 0 = 0 := by
    rw [isplineRaw, Finset.Icc_self, Finset.sum_singleton, bsplineBasis]
    norm_num [knotFun, cs8_knots, spanIdx, coxN_zero_eval, List.range_succ, List.filter]
  rw [isplineBasis, hraw, zero_div]

lemma cs8_basis_one : isplineBasis 1 0 (0 : ℝ) 1 0 1 = 1 := by
  have hraw : isplineRaw 1 0 (0 : ℝ) 1 0 1 = 1 := by
    rw [isplineRaw, Finset.Icc_self, Finset.sum_singleton, bsplineBasis]
    norm_num [knotFun, cs8_knots, spanIdx, coxN_zero_eval, List.range_succ, List.filter]
  rw [isplineBasis, normConst, hraw]
  norm_num

/-- C8 counterexample: at the fit whose optimizer outcome is the
coefficient vector `[1]` with intercept `0` (configuration
`n_basis = 1, degree = 0` on `[0, 1]`, data `x = [0, 1], y = [0, 2]`,
weights `[1, 3]`), the reported `rmse` is
`sqrt(mean(residuals**2)) = sqrt(1/2)`, while the weighted root mean
square of the same residuals under the normalized weights `[1/4, 3/4]`
is `sqrt(3/4)`: the `rmse` diagnostic is not the weighted RMSE. -/
theorem C8_counterexample :
    fitRMSE (residualList [0, 2] (fitPredictions 1 0 (0 : ℝ) 1 [1] 0 [0, 1]))
      ≠ Real.sqrt (weightedSqSum (normalizeWeights [1, 3])
          (residualList [0, 2] (fitPredictions 1 0 (0 : ℝ) 1 [1] 0 [0, 1]))) := by
  have hpred : fitPredictions 1 0 (0 : ℝ) 1 [1] 0 [0, 1] = [0, 1] := by
    simp [fitPredictions, cs8_basis_zero, cs8_basis_one]
  have hres : residualList [0, 2] (fitPredictions 1 0 (0 : ℝ) 1 [1] 0 [0, 1]) = [0, 1] := by
    rw [hpred]; norm_num [residualList]
  have hl : fitRMSE (residualList [0, 2] (fitPredictions 1 0 (0 : ℝ) 1 [1] 0 [0, 1]))
      = Real.sqrt (1 / 2) := by
    rw [hres]; norm_num [fitRMSE]
  have hw : normalizeWeights [(1 : ℝ), 3] = [1 / 4, 3 / 4] := by
    norm_num [normalizeWeights]
  have hr : weightedSqSum (normalizeWeights [(1 : ℝ), 3])
      (residualList [0, 2] (fitPredictions 1 0 (0 : ℝ) 1 [1] 0 [0, 1])) = 3 / 4 := by
    rw [hres, hw]; norm_num [weightedSqSum]
  rw [hl, hr]
  exact ne_of_lt (Real.sqrt_lt_sqrt (by norm_num) (by norm_num))

/-- C8 (amended): the `rmse` diagnostic equals the unweighted root mean
square of the residuals of the fitted curve against the targets: the
square root of the plain (equal-weight) mean of the squared differences
between `y` and the fitted curve evaluated at `x`.  The normalized
weights enter the objective and `r2`, but not `rmse`. -/
theorem C8_rmse_unweighted (nBasis degree : ℕ) (a b intercept : ℝ)
    (coef xs ys : List ℝ) :
    fitRMSE (residualList ys (fitPredictions nBasis degree a b coef intercept xs))
      = Real.sqrt
          ((List.zipWith
              (fun y x =>
                (y - evalMonotoneSpline (fitParams nBasis degree a b coef intercept) x) ^ 2)
              ys xs).sum
            / ((List.zipWith
                (fun y x =>
                  (y - evalMonotoneSpline (fitParams nBasis degree a b coef intercept) x) ^ 2)
                ys xs).length : ℝ)) := by
  have heval : ∀ x : ℝ,
      evalMonotoneSpline (fitParams nBasis degree a b coef intercept) x
        = intercept + ∑ j ∈ Finset.range nBasis,
            coef.getD j 0 * isplineBasis nBasis degree a b j x := by
    intro x; rfl
  unfold fitRMSE residualList fitPredictions
  rw [List.zipWith_map_right, List.map_zipWith]
  simp only [heval, List.length_zipWith]

/-! ### Closed form of the knot sequence -/

lemma getD_replicate_self (n i : ℕ) (c : K) : (List.replicate n c).getD i c = c := by
  rcases lt_or_le i n with h | h
  · rw [List.getD_eq_getElem _ _ (by simpa using h), List.getElem_replicate]
  · rw [List.getD_eq_default _ _ (by simpa using h)]

lemma linspace_length (a b : K) (n : ℕ) : (linspace a b n).length = n := by
  rw [linspace, List.length_map, List.length_range]

lemma interior_length (N deg : ℕ) (a b : K) :
    (((linspace a b (nInteriorOf N deg + 2)).drop 1).dropLast).length
      = nInteriorOf N deg := by
  rw [List.length_dropLast, List.length_drop, linspace_length]
  omega

lemma bsplineKnots_length (N deg : ℕ) (a b : K) :
    (bsplineKnots N deg a b).length = (deg + 1) + nInteriorOf N deg + (deg + 1) := by
  rw [bsplineKnots, List.length_append, List.length_append, List.length_replicate,
    List.length_replicate, interior_length]

lemma knotFun_low (N deg : ℕ) (a b : K) (j : ℕ) (hj : j ≤ deg) :
    knotFun N deg a b j = a := by
  unfold knotFun bsplineKnots
  rw [List.append_assoc]
  rw [List.getD_append (List.replicate (deg + 1) a) _ b j
    (by rw [List.length_replicate]; omega)]
  rw [List.getD_eq_getElem _ _ (by rw [List.length_replicate]; omega),
    List.getElem_replicate]

lemma knotFun_interior (N deg : ℕ) (a b : K) (i : ℕ) (hi : i < nInteriorOf N deg) :
    knotFun N deg a b (deg + 1 + i)
      = a + (b - a) * ((i : K) + 1) / ((nInteriorOf N deg : K) + 1) := by
  unfold knotFun bsplineKnots
  rw [List.append_assoc]
  rw [List.getD_append_right (List.replicate (deg + 1) a) _ b (deg + 1 + i)
    (by rw [List.length_replicate]; omega)]
  rw [List.length_replicate]
  have h1 : deg + 1 + i - (deg + 1) = i := by omega
  rw [h1]
  rw [List.getD_append _ _ b i (by rw [interior_length]; omega)]
  have h2 : i < (((linspace a b (nInteriorOf N deg + 2)).drop 1).dropLast).length := by
    rw [interior_length]; exact hi
  rw [List.getD_eq_getElem _ _ h2, List.getElem_dropLast, List.getElem_drop]
  unfold linspace
  rw [List.getElem_map]
  rw [List.getElem_range]
  push_cast
  ring_nf

lemma knotFun_high (N deg : ℕ) (a b : K) (j : ℕ) (hj : deg + nInteriorOf N deg + 1 ≤ j) :
    knotFun N deg a b j = b := by
  unfold knotFun bsplineKnots
  rw [List.append_assoc]
  rw [List.getD_append_right (List.replicate (deg + 1) a) _ b j
    (by rw [List.length_replicate]; omega)]
  rw [List.length_replicate]
  rw [List.getD_append_right _ _ b (j - (deg + 1)) (by rw [interior_length]; omega)]
  rw [interior_length]
  exact getD_replicate_self _ _ _

lemma knotFun_mono (N deg : ℕ) (a b : K) (hab : a ≤ b) :
    Monotone (knotFun N deg a b) := by
  apply monotone_nat_of_le_succ
  intro j
  set nI := nInteriorOf N deg with hnI
  have hdiv : (0 : K) < (nI : K) + 1 := by positivity
  have hba : (0 : K) ≤ b - a := by linarith
  rcases le_or_lt (j + 1) deg with h1 | h1
  · rw [knotFun_low N deg a b j (by omega), knotFun_low N deg a b (j + 1) h1]
  rcases le_or_lt j deg with h2 | h2
  · -- here j = deg: the first knot past the x_min block
    rw [knotFun_low N deg a b j h2]
    rcases Nat.eq_zero_or_pos nI with h0 | h0
    · rw [knotFun_high N deg a b (j + 1) (by omega)]
      exact hab
    · have hji : j + 1 = deg + 1 + 0 := by omega
      rw [hji, knotFun_interior N deg a b 0 (by omega)]
      have hnn : (0 : K) ≤ (b - a) * ((0 : K) + 1) / ((nI : K) + 1) :=
        div_nonneg (mul_nonneg hba (by norm_num)) (le_of_lt hdiv)
      linarith
  rcases le_or_lt (j + 1) (deg + nI) with h3 | h3
  · -- both interior knots
    have hi : j = deg + 1 + (j - deg - 1) := by omega
    have hi1 : j + 1 = deg + 1 + (j - deg) := by omega
    rw [hi, knotFun_interior N deg a b (j - deg - 1) (by omega), ← hi,
      hi1, knotFun_interior N deg a b (j - deg) (by omega)]
    have hc : ((j - deg - 1 : ℕ) : K) + 1 ≤ ((j - deg : ℕ) : K) + 1 := by
      have h5 : ((j - deg - 1 : ℕ) : K) ≤ ((j - deg : ℕ) : K) :=
        Nat.cast_le.mpr (by omega)
      linarith
    have key : (b - a) * (((j - deg - 1 : ℕ) : K) + 1) / ((nI : K) + 1)
        ≤ (b - a) * (((j - deg : ℕ) : K) + 1) / ((nI : K) + 1) := by
      rw [div_le_div_right hdiv]
      exact mul_le_mul_of_nonneg_left hc hba
    linarith
  rcases le_or_lt j (deg + nI) with h4 | h4
  · -- here j = deg + nI: last interior knot up to x_max
    have hpos : 0 < nI := by omega
    rw [knotFun_high N deg a b (j + 1) (by omega)]
    have hi : j = deg + 1 + (nI - 1) := by omega
    rw [hi, knotFun_interior N deg a b (nI - 1) (by omega)]
    have hc : ((nI - 1 : ℕ) : K) + 1 ≤ (nI : K) + 1 := by
      have h5 : ((nI - 1 : ℕ) : K) ≤ (nI : K) := Nat.cast_le.mpr (by omega)
      linarith
    have hfr : (b - a) * (((nI - 1 : ℕ) : K) + 1) / ((nI : K) + 1) ≤ b - a := by
      rw [div_le_iff hdiv]
      nlinarith
    linarith
  · -- both in the x_max block
    rw [knotFun_high N deg a b j (by omega), knotFun_high N deg a b (j + 1) (by omega)]

lemma knotFun_ge_bot (N deg : ℕ) (a b : K) (hab : a ≤ b) (j : ℕ) :
    a ≤ knotFun N deg a b j := by
  have h := knotFun_mono N deg a b hab (Nat.zero_le j)
  rwa [knotFun_low N deg a b 0 (Nat.zero_le deg)] at h

lemma knotFun_le_top (N deg : ℕ) (a b : K) (hab : a ≤ b) (j : ℕ) :
    knotFun N deg a b j ≤ b := by
  have h := knotFun_mono N deg a b hab
    (show j ≤ deg + nInteriorOf N deg + 1 + j by omega)
  rwa [knotFun_high N deg a b (deg + nInteriorOf N deg + 1 + j) (by omega)] at h

lemma knotFun_gt_bot (N deg : ℕ) (a b : K) (hab : a < b) :
    a < knotFun N deg a b (deg + 1) := by
  rcases Nat.eq_zero_or_pos (nInteriorOf N deg) with h0 | h0
  · rw [knotFun_high N deg a b (deg + 1) (by omega)]
    exact hab
  · rw [show deg + 1 = deg + 1 + 0 from rfl, knotFun_interior N deg a b 0 (by omega)]
    have hba : (0 : K) < b - a := by linarith
    have hdiv : (0 : K) < (nInteriorOf N deg : K) + 1 := by positivity
    have hnn : (0 : K) < (b - a) * ((0 : K) + 1) / ((nInteriorOf N deg : K) + 1) := by
      apply div_pos (by nlinarith) hdiv
    linarith

lemma knotFun_lt_top (N deg : ℕ) (a b : K) (hab : a < b) :
    knotFun N deg a b (deg + nInteriorOf N deg) < b := by
  rcases Nat.eq_zero_or_pos (nInteriorOf N deg) with h0 | h0
  · rw [h0, Nat.add_zero, knotFun_low N deg a b deg le_rfl]
    exact hab
  · have hi : deg + nInteriorOf N deg = deg + 1 + (nInteriorOf N deg - 1) := by omega
    rw [hi, knotFun_interior N deg a b _ (by omega)]
    have hdiv : (0 : K) < (nInteriorOf N deg : K) + 1 := by positivity
    have hba : (0 : K) < b - a := by linarith
    have hc : ((nInteriorOf N deg - 1 : ℕ) : K) + 1 ≤ (nInteriorOf N deg : K) := by
      have h5 : (nInteriorOf N deg - 1 : ℕ) + 1 ≤ nInteriorOf N deg := by omega
      exact_mod_cast Nat.cast_le.mpr h5
    have hfr : (b - a) * (((nInteriorOf N deg - 1 : ℕ) : K) + 1) / ((nInteriorOf N deg : K) + 1)
        < b - a := by
      rw [div_lt_iff hdiv]
      nlinarith
    linarith

/-! ### The recorded knot layout (claim C7, amended) -/

/-- C7 (amended): the knot sequence recorded by `fit_monotone_spline` is
uniquely determined by the configuration and consists of `degree+1`
repeated knots at `x_min`, `degree+1` repeated knots at `x_max`, and
exactly `n_basis - degree` interior knots (not `n_basis - degree - 1`:
the underlying B-spline family has `n_basis + 1` members), evenly spaced
strictly between `x_min` and `x_max`. -/
theorem C7_recorded_knots (nBasis degree : ℕ) (a b : ℝ)
    (hnd : degree ≤ nBasis) (hab : a < b) :
    (fitKnots nBasis degree a b).length = 2 * (degree + 1) + (nBasis - degree) ∧
    (∀ j, j ≤ degree → (fitKnots nBasis degree a b).getD j b = a) ∧
    (∀ j, degree + (nBasis - degree) + 1 ≤ j →
      (fitKnots nBasis degree a b).getD j b = b) ∧
    (∀ i, i < nBasis - degree →
      (fitKnots nBasis degree a b).getD (degree + 1 + i) b
          = a + (b - a) * ((i : ℝ) + 1) / (((nBasis - degree : ℕ) : ℝ) + 1) ∧
        a < (fitKnots nBasis degree a b).getD (degree + 1 + i) b ∧
        (fitKnots nBasis degree a b).getD (degree + 1 + i) b < b) := by
  have hNI : nInteriorOf (nBasis + 1) degree = nBasis - degree := by
    unfold nInteriorOf; omega
  have hfit : ∀ j, (fitKnots nBasis degree a b).getD j b
      = knotFun (nBasis + 1) degree a b j := fun _ => rfl
  refine ⟨?_, ?_, ?_, ?_⟩
  · rw [fitKnots, bsplineKnots_length, hNI]; omega
  · intro j hj
    rw [hfit, knotFun_low _ _ _ _ j hj]
  · intro j hj
    rw [hfit, knotFun_high _ _ _ _ j (by omega)]
  · intro i hi
    have hi2 : i < nInteriorOf (nBasis + 1) degree := by omega
    have hval := knotFun_interior (nBasis + 1) degree a b i hi2
    rw [hNI] at hval
    refine ⟨by rw [hfit]; exact hval, ?_, ?_⟩
    · rw [hfit, hval]
      have hba : (0 : ℝ) < b - a := by linarith
      have hpos : (0 : ℝ) < (b - a) * ((i : ℝ) + 1) / (((nBasis - degree : ℕ) : ℝ) + 1) := by
        positivity
      linarith
    · rw [hfit, hval]
      have hba : (0 : ℝ) < b - a := by linarith
      have hd : (0 : ℝ) < ((nBasis - degree : ℕ) : ℝ) + 1 := by positivity
      have hlt : ((i : ℝ) + 1) < ((nBasis - degree : ℕ) : ℝ) + 1 := by
        have : (i : ℝ) + 1 ≤ ((nBasis - degree : ℕ) : ℝ) := by
          exact_mod_cast Nat.cast_le.mpr (by omega : i + 1 ≤ nBasis - degree)
        linarith
      have : (b - a) * ((i : ℝ) + 1) / (((nBasis - degree : ℕ) : ℝ) + 1) < b - a := by
        rw [div_lt_iff hd]
        nlinarith
      linarith

/-- Witness for the amended C7 at the default configuration. -/
theorem C7_recorded_knots_witness :
    ((3 : ℕ) ≤ 6 ∧ (0 : ℝ) < 1) ∧
    ((fitKnots 6 3 (0 : ℝ) 1).length = 2 * (3 + 1) + (6 - 3) ∧
      (∀ j, j ≤ 3 → (fitKnots 6 3 (0 : ℝ) 1).getD j 1 = 0) ∧
      (∀ j, 3 + (6 - 3) + 1 ≤ j → (fitKnots 6 3 (0 : ℝ) 1).getD j 1 = 1) ∧
      (∀ i, i < 6 - 3 →
        (fitKnots 6 3 (0 : ℝ) 1).getD (3 + 1 + i) 1
            = 0 + (1 - 0) * ((i : ℝ) + 1) / (((6 - 3 : ℕ) : ℝ) + 1) ∧
          (0 : ℝ) < (fitKnots 6 3 (0 : ℝ) 1).getD (3 + 1 + i) 1 ∧
          (fitKnots 6 3 (0 : ℝ) 1).getD (3 + 1 + i) 1 < 1)) :=
  ⟨⟨by norm_num, by norm_num⟩, C7_recorded_knots 6 3 0 1 (by norm_num) (by norm_num)⟩

/-! ### Values of the basis at the domain boundaries -/

lemma spanIdx_at_top (t : ℕ → K) (deg N : ℕ) (x : K) (hdN : deg + 1 ≤ N)
    (hall : ∀ j, t j ≤ x) : spanIdx t deg N x = N - 1 := by
  unfold spanIdx
  rw [List.filter_eq_self.mpr (fun j _ => decide_eq_true (hall _)),
    List.length_range]
  omega

lemma spanIdx_at_bot (t : ℕ → K) (deg N : ℕ) (x : K)
    (hnone : ∀ j, ¬ t (deg + 1 + j) ≤ x) : spanIdx t deg N x = deg := by
  unfold spanIdx
  rw [List.filter_eq_nil_iff.mpr (fun j _ => by simpa using hnone j)]
  simp

lemma coxN_at_top (t : ℕ → K) (M : ℕ) (b : K)
    (htop : ∀ j, M + 1 ≤ j → t j = b) (hlt : t M < b) :
    ∀ p i, coxN t M p i b = if i = M then 1 else 0 := by
  intro p
  induction p with
  | zero => intro i; rfl
  | succ p ih =>
    intro i
    rw [coxN_succ_eval]
    rcases eq_or_ne i M with hi | hi
    · subst hi
      rw [htop (i + p + 1) (by omega), htop (i + p + 2) (by omega),
        htop (i + 1) (by omega), ih i, ih (i + 1)]
      have h1 : (b : K) ≠ t i := ne_of_gt hlt
      simp [h1, div_self (sub_ne_zero.mpr h1)]
    · rw [ih i, ih (i + 1)]
      rcases eq_or_ne (i + 1) M with hi1 | hi1
      · rw [htop (i + p + 2) (by omega)]
        simp [hi, hi1, sub_self]
      · simp [hi, hi1]

lemma coxN_at_bot (t : ℕ → K) (k : ℕ) (a : K)
    (hbot : ∀ j, j ≤ k → t j = a) (hgt : a < t (k + 1)) :
    ∀ p, p ≤ k → ∀ i, coxN t k p i a = if i + p = k then 1 else 0 := by
  intro p
  induction p with
  | zero => intro _ i; simp [coxN_zero_eval]
  | succ p ih =>
    intro hp i
    rw [coxN_succ_eval, ih (by omega) i, ih (by omega) (i + 1)]
    rcases eq_or_ne (i + 1 + p) k with hi1 | hi1
    · have he : i + p + 2 = k + 1 := by omega
      rw [he, hbot (i + 1) (by omega)]
      have hne : t (k + 1) ≠ a := ne_of_gt hgt
      have hip : i + p ≠ k := by omega
      have hgoal : i + (p + 1) = k := by omega
      simp [hip, hne, div_self (sub_ne_zero.mpr hne), hgoal, hi1]
    · rcases eq_or_ne (i + p) k with hi0 | hi0
      · rw [hbot i (by omega)]
        have hipk : i + (p + 1) ≠ k := by omega
        simp [hi0, hi1, hipk, sub_self]
      · have hipk : i + (p + 1) ≠ k := by omega
        simp [hi0, hi1, hipk]

lemma bsplineBasis_at_top (nBasis degree : ℕ) (a b : K)
    (hnd : degree ≤ nBasis) (hab : a < b) (i : ℕ) :
    bsplineBasis (nBasis + 1) degree a b i b = if i = nBasis then 1 else 0 := by
  have hNI : nInteriorOf (nBasis + 1) degree = nBasis - degree := by
    unfold nInteriorOf; omega
  have htop : ∀ j, nBasis + 1 ≤ j → knotFun (nBasis + 1) degree a b j = b := by
    intro j hj
    exact knotFun_high _ _ _ _ j (by omega)
  have hlt : knotFun (nBasis + 1) degree a b nBasis < b := by
    have := knotFun_lt_top (nBasis + 1) degree a b hab
    rwa [hNI, show degree + (nBasis - degree) = nBasis by omega] at this
  have hspan : spanIdx (knotFun (nBasis + 1) degree a b) degree (nBasis + 1) b
      = nBasis := by
    rw [spanIdx_at_top _ _ _ _ (by omega)
      (fun j => knotFun_le_top _ _ _ _ (le_of_lt hab) j)]
    omega
  rw [bsplineBasis, hspan]
  exact coxN_at_top _ nBasis b htop hlt degree i

lemma bsplineBasis_at_bot (nBasis degree : ℕ) (a b : K)
    (hab : a < b) (i : ℕ) :
    bsplineBasis (nBasis + 1) degree a b i a = if i = 0 then 1 else 0 := by
  have hbot : ∀ j, j ≤ degree → knotFun (nBasis + 1) degree a b j = a :=
    fun j hj => knotFun_low _ _ _ _ j hj
  have hgt : a < knotFun (nBasis + 1) degree a b (degree + 1) :=
    knotFun_gt_bot _ _ _ _ hab
  have hspan : spanIdx (knotFun (nBasis + 1) degree a b) degree (nBasis + 1) a
      = degree := by
    apply spanIdx_at_bot
    intro j
    have h1 : knotFun (nBasis + 1) degree a b (degree + 1)
        ≤ knotFun (nBasis + 1) degree a b (degree + 1 + j) :=
      knotFun_mono _ _ _ _ (le_of_lt hab) (by omega)
    exact not_le.mpr (lt_of_lt_of_le hgt h1)
  rw [bsplineBasis, hspan]
  have h := coxN_at_bot (knotFun (nBasis + 1) degree a b) degree a hbot hgt degree
    le_rfl i
  rw [h]
  rcases eq_or_ne i 0 with hi0 | hi0
  · subst hi0; simp
  · rw [if_neg (by omega), if_neg hi0]

lemma isplineRaw_at_top (nBasis degree : ℕ) (a b : K)
    (hnd : degree ≤ nBasis) (hab : a < b) (j : ℕ) (hj : j < nBasis) :
    isplineRaw nBasis degree a b j b = 1 := by
  unfold isplineRaw
  rw [Finset.sum_congr rfl
    (fun i _ => bsplineBasis_at_top nBasis degree a b hnd hab i)]
  rw [Finset.sum_ite_eq' (Finset.Icc (j + 1) nBasis) nBasis (fun _ => (1 : K))]
  rw [if_pos (by simp [Finset.mem_Icc]; omega)]

lemma isplineRaw_at_bot (nBasis degree : ℕ) (a b : K)
    (hab : a < b) (j : ℕ) :
    isplineRaw nBasis degree a b j a = 0 := by
  unfold isplineRaw
  rw [Finset.sum_congr rfl
    (fun i _ => bsplineBasis_at_bot nBasis degree a b hab i)]
  apply Finset.sum_eq_zero
  intro i hi
  rw [if_neg]
  rw [Finset.mem_Icc] at hi
  omega

lemma normConst_eq_one (nBasis degree : ℕ) (a b : K)
    (hnd : degree ≤ nBasis) (hab : a < b) (j : ℕ) (hj : j < nBasis) :
    normConst nBasis degree a b j = 1 := by
  unfold normConst
  rw [isplineRaw_at_top nBasis degree a b hnd hab j hj]
  norm_num

/-- C4 (amended): for every basis configuration with `degree ≤ n_basis`
and `x_min < x_max`, the construction is accepted by scipy's `BSpline`
constructor (for `n_basis < degree` it instead raises `ValueError` and
returns nothing), each column of the normalized I-spline basis evaluates
to exactly `1` at `x_max` and to exactly `0` at `x_min`, and the
normalization divisor is never zero (the zero-divisor guard replaces a
vanishing constant by `1`). -/
theorem C4_boundary_identity (nBasis degree : ℕ) (a b : ℝ)
    (hnd : degree ≤ nBasis) (hab : a < b) (j : ℕ) (hj : j < nBasis) :
    isplineConstructionOk nBasis degree a b ∧
    isplineBasis nBasis degree a b j b = 1 ∧
    isplineBasis nBasis degree a b j a = 0 ∧
    normConst nBasis degree a b j ≠ 0 := by
  refine ⟨?_, ?_, ?_, ?_⟩
  · unfold isplineConstructionOk scipyBSplineOk
    rw [bsplineKnots_length]
    have hNI : nInteriorOf (nBasis + 1) degree = nBasis - degree := by
      unfold nInteriorOf; omega
    rw [hNI]
    omega
  · rw [isplineBasis, isplineRaw_at_top nBasis degree a b hnd hab j hj,
      normConst_eq_one nBasis degree a b hnd hab j hj]
    norm_num
  · rw [isplineBasis, isplineRaw_at_bot nBasis degree a b hab j, zero_div]
  · rw [normConst_eq_one nBasis degree a b hnd hab j hj]
    norm_num

/-- Witness for the amended C4 at the default configuration. -/
theorem C4_boundary_identity_witness :
    ((3 : ℕ) ≤ 6 ∧ (0 : ℝ) < 1 ∧ (0 : ℕ) < 6) ∧
    (isplineConstructionOk 6 3 (0 : ℝ) 1 ∧
      isplineBasis 6 3 (0 : ℝ) 1 0 1 = 1 ∧
      isplineBasis 6 3 (0 : ℝ) 1 0 0 = 0 ∧
      normConst 6 3 (0 : ℝ) 1 0 ≠ 0) :=
  ⟨⟨by norm_num, by norm_num, by norm_num⟩,
    C4_boundary_identity 6 3 0 1 (by norm_num) (by norm_num) 0 (by norm_num)⟩

/-! ### Span-local monotonicity of monotone-coefficient B-spline sums

Inside one knot span, `sum c i * coxN t m l i x` is computed by repeated
convex combinations of consecutive coefficients (de Boor's algorithm).
If the coefficient family is nondecreasing in the index and in `x`, each
combination step preserves both properties, so the value is nondecreasing
in `x` on the span.  This is the mechanism behind the monotonicity of
I-spline suffix sums with nonnegative weights. -/

lemma coxN_eq_zero_of_gt (t : ℕ → K) (m : ℕ) :
    ∀ p i, m < i → ∀ x, coxN t m p i x = 0 := by
  intro p
  induction p with
  | zero =>
    intro i hi x
    rw [coxN_zero_eval, if_neg (by omega)]
  | succ p ih =>
    intro i hi x
    rw [coxN_succ_eval, ih i hi x, ih (i + 1) (by omega) x]
    simp

lemma coxN_eq_zero_of_lt (t : ℕ → K) (m : ℕ) :
    ∀ p i, i + p < m → ∀ x, coxN t m p i x = 0 := by
  intro p
  induction p with
  | zero =>
    intro i hi x
    rw [coxN_zero_eval, if_neg (by omega)]
  | succ p ih =>
    intro i hi x
    rw [coxN_succ_eval, ih i (by omega) x, ih (i + 1) (by omega) x]
    simp

lemma coxN_sum_collect (t : ℕ → K) (m l : ℕ) (hmono : Monotone t)
    (hspan : t m < t (m + 1)) (hlm : l + 1 ≤ m) (c : ℕ → K → K) (z : K) :
    ∑ i ∈ Finset.range (m + 1), c i z * coxN t m (l + 1) i z
      = ∑ i ∈ Finset.range (m + 1),
          ((1 - omg t (l + 1) i z) * c (i - 1) z + omg t (l + 1) i z * c i z)
            * coxN t m l i z := by
  -- second piece of the recursion, reindexed one step up
  set G : ℕ → K := fun j => c (j - 1) z *
    (if t (j + l + 1) = t j then 0
      else (t (j + l + 1) - z) / (t (j + l + 1) - t j) * coxN t m l j z) with hG
  have hidx : ∀ a : ℕ, a + 1 + l + 1 = a + l + 2 := fun a => by omega
  have hG0 : G 0 = 0 := by
    rw [hG]
    simp only []
    rw [coxN_eq_zero_of_lt t m l 0 (by omega) z]
    simp
  have hGm1 : G (m + 1) = 0 := by
    rw [hG]
    simp only []
    rw [coxN_eq_zero_of_gt t m l (m + 1) (by omega) z]
    simp
  have hB : ∑ i ∈ Finset.range (m + 1),
      c i z * (if t (i + l + 2) = t (i + 1) then 0
        else (t (i + l + 2) - z) / (t (i + l + 2) - t (i + 1)) * coxN t m l (i + 1) z)
      = ∑ j ∈ Finset.range (m + 1), G j := by
    have hGsucc : ∀ i : ℕ, G (i + 1)
        = c i z * (if t (i + l + 2) = t (i + 1) then 0
            else (t (i + l + 2) - z) / (t (i + l + 2) - t (i + 1)) * coxN t m l (i + 1) z) := by
      intro i
      rw [hG]
      simp only [Nat.add_sub_cancel, hidx]
    have h1 := Finset.sum_range_succ' G (m + 1)
    have h2 := Finset.sum_range_succ G (m + 1)
    rw [h2, hGm1, add_zero] at h1
    calc ∑ i ∈ Finset.range (m + 1),
          c i z * (if t (i + l + 2) = t (i + 1) then 0
            else (t (i + l + 2) - z) / (t (i + l + 2) - t (i + 1)) * coxN t m l (i + 1) z)
        = ∑ i ∈ Finset.range (m + 1), G (i + 1) := by
          exact Finset.sum_congr rfl (fun i _ => (hGsucc i).symm)
      _ = ∑ j ∈ Finset.range (m + 1), G j := by rw [h1, hG0, add_zero]
  calc ∑ i ∈ Finset.range (m + 1), c i z * coxN t m (l + 1) i z
      = ∑ i ∈ Finset.range (m + 1),
          (c i z * (if t (i + l + 1) = t i then 0
              else (z - t i) / (t (i + l + 1) - t i) * coxN t m l i z)
            + c i z * (if t (i + l + 2) = t (i + 1) then 0
              else (t (i + l + 2) - z) / (t (i + l + 2) - t (i + 1)) * coxN t m l (i + 1) z)) := by
        exact Finset.sum_congr rfl (fun i _ => by rw [coxN_succ_eval]; ring
        )
    _ = ∑ i ∈ Finset.range (m + 1),
          c i z * (if t (i + l + 1) = t i then 0
            else (z - t i) / (t (i + l + 1) - t i) * coxN t m l i z)
        + ∑ i ∈ Finset.range (m + 1),
          c i z * (if t (i + l + 2) = t (i + 1) then 0
            else (t (i + l + 2) - z) / (t (i + l + 2) - t (i + 1)) * coxN t m l (i + 1) z) :=
        Finset.sum_add_distrib
    _ = ∑ i ∈ Finset.range (m + 1),
          (c i z * (if t (i + l + 1) = t i then 0
            else (z - t i) / (t (i + l + 1) - t i) * coxN t m l i z) + G i) := by
        rw [hB, Finset.sum_add_distrib]
    _ = ∑ i ∈ Finset.range (m + 1),
          ((1 - omg t (l + 1) i z) * c (i - 1) z + omg t (l + 1) i z * c i z)
            * coxN t m l i z := by
        apply Finset.sum_congr rfl
        intro i hi
        rw [Finset.mem_range] at hi
        rcases lt_or_le (i + l) m with hwin | hwin
        · -- inactive index: the level-l B-spline vanishes
          rw [coxN_eq_zero_of_lt t m l i hwin z, hG]
          simp only []
          rw [coxN_eq_zero_of_lt t m l i hwin z]
          simp
        · -- active index: genuine convex-combination step
          have hD : t i < t (i + l + 1) :=
            lt_of_le_of_lt (hmono (by omega : i ≤ m))
              (lt_of_lt_of_le hspan (hmono (by omega : m + 1 ≤ i + l + 1)))
          have hDne : t (i + l + 1) - t i ≠ 0 := sub_ne_zero.mpr (ne_of_gt hD)
          have homg : omg t (l + 1) i z = (z - t i) / (t (i + l + 1) - t i) := rfl
          rw [hG]
          simp only []
          rw [if_neg (ne_of_gt hD), if_neg (ne_of_gt hD), homg]
          field_simp
          ring

lemma deBoor_mono (t : ℕ → K) (m : ℕ) (hmono : Monotone t)
    (hspan : t m < t (m + 1)) :
    ∀ l, l ≤ m → ∀ c : ℕ → K → K,
      (∀ i, i ≤ m → m ≤ i + l → ∀ x y, t m ≤ x → x ≤ y → y ≤ t (m + 1) →
        c i x ≤ c i y) →
      (∀ i, i + 1 ≤ m → m ≤ i + l → ∀ x, t m ≤ x → x ≤ t (m + 1) →
        c i x ≤ c (i + 1) x) →
      ∀ x y, t m ≤ x → x ≤ y → y ≤ t (m + 1) →
        ∑ i ∈ Finset.range (m + 1), c i x * coxN t m l i x
          ≤ ∑ i ∈ Finset.range (m + 1), c i y * coxN t m l i y := by
  intro l
  induction l with
  | zero =>
    intro _ c Hx _ x y hx hxy hy
    have hval : ∀ z : K, ∑ i ∈ Finset.range (m + 1), c i z * coxN t m 0 i z = c m z := by
      intro z
      simp only [coxN_zero_eval, mul_ite, mul_one, mul_zero]
      rw [Finset.sum_ite_eq' (Finset.range (m + 1)) m (fun i => c i z)]
      rw [if_pos (Finset.mem_range.mpr (by omega))]
    rw [hval x, hval y]
    exact Hx m le_rfl (by omega) x y hx hxy hy
  | succ l ih =>
    intro hlm c Hx Hi x y hx hxy hy
    rw [coxN_sum_collect t m l hmono hspan hlm c x,
      coxN_sum_collect t m l hmono hspan hlm c y]
    refine ih (by omega)
      (fun i z => (1 - omg t (l + 1) i z) * c (i - 1) z + omg t (l + 1) i z * c i z)
      ?_ ?_ x y hx hxy hy
    · -- the combined coefficients are monotone in the evaluation point
      intro i him hmi x1 y1 hx1 hxy1 hy1
      show (1 - omg t (l + 1) i x1) * c (i - 1) x1 + omg t (l + 1) i x1 * c i x1
        ≤ (1 - omg t (l + 1) i y1) * c (i - 1) y1 + omg t (l + 1) i y1 * c i y1
      have hi1 : 1 ≤ i := by omega
      have hD : t i < t (i + (l + 1)) :=
        lt_of_le_of_lt (hmono (by omega : i ≤ m))
          (lt_of_lt_of_le hspan (hmono (by omega : m + 1 ≤ i + (l + 1))))
      have hDpos : (0 : K) < t (i + (l + 1)) - t i := sub_pos.mpr hD
      have hti : t i ≤ t m := hmono (by omega : i ≤ m)
      have homg : ∀ z : K, omg t (l + 1) i z = (z - t i) / (t (i + (l + 1)) - t i) :=
        fun z => rfl
      have hw0 : 0 ≤ omg t (l + 1) i x1 := by
        rw [homg]
        exact div_nonneg (by linarith) (le_of_lt hDpos)
      have hw1 : omg t (l + 1) i x1 ≤ 1 := by
        rw [homg, div_le_one hDpos]
        have := hmono (by omega : m + 1 ≤ i + (l + 1))
        linarith
      have hwm : omg t (l + 1) i x1 ≤ omg t (l + 1) i y1 := by
        rw [homg, homg]
        exact (div_le_div_right hDpos).mpr (by linarith)
      have f1 : c (i - 1) x1 ≤ c (i - 1) y1 :=
        Hx (i - 1) (by omega) (by omega) x1 y1 hx1 hxy1 hy1
      have f2 : c i x1 ≤ c i y1 :=
        Hx i (by omega) (by omega) x1 y1 hx1 hxy1 hy1
      have f3 : c (i - 1) y1 ≤ c i y1 := by
        have h := Hi (i - 1) (by omega) (by omega) y1 (le_trans hx1 hxy1) hy1
        rwa [show i - 1 + 1 = i by omega] at h
      have p1 : 0 ≤ (1 - omg t (l + 1) i x1) * (c (i - 1) y1 - c (i - 1) x1) :=
        mul_nonneg (by linarith) (by linarith)
      have p2 : 0 ≤ omg t (l + 1) i x1 * (c i y1 - c i x1) :=
        mul_nonneg hw0 (by linarith)
      have p3 : 0 ≤ (omg t (l + 1) i y1 - omg t (l + 1) i x1) * (c i y1 - c (i - 1) y1) :=
        mul_nonneg (by linarith) (by linarith)
      linarith [p1, p2, p3]
    · -- the combined coefficients stay monotone in the index
      intro i hi1m hmi z hz1 hz2
      show (1 - omg t (l + 1) i z) * c (i - 1) z + omg t (l + 1) i z * c i z
        ≤ (1 - omg t (l + 1) (i + 1) z) * c (i + 1 - 1) z
          + omg t (l + 1) (i + 1) z * c (i + 1) z
      have hi1 : 1 ≤ i := by omega
      have hDi : t i < t (i + (l + 1)) :=
        lt_of_le_of_lt (hmono (by omega : i ≤ m))
          (lt_of_lt_of_le hspan (hmono (by omega : m + 1 ≤ i + (l + 1))))
      have hDipos : (0 : K) < t (i + (l + 1)) - t i := sub_pos.mpr hDi
      have hDj : t (i + 1) < t ((i + 1) + (l + 1)) :=
        lt_of_le_of_lt (hmono (by omega : i + 1 ≤ m))
          (lt_of_lt_of_le hspan (hmono (by omega : m + 1 ≤ (i + 1) + (l + 1))))
      have hDjpos : (0 : K) < t ((i + 1) + (l + 1)) - t (i + 1) := sub_pos.mpr hDj
      have homgi : omg t (l + 1) i z = (z - t i) / (t (i + (l + 1)) - t i) := rfl
      have homgj : omg t (l + 1) (i + 1) z
          = (z - t (i + 1)) / (t ((i + 1) + (l + 1)) - t (i + 1)) := rfl
      have hti : t i ≤ t m := hmono (by omega : i ≤ m)
      have htj : t (i + 1) ≤ t m := hmono (by omega : i + 1 ≤ m)
      have hwi0 : 0 ≤ omg t (l + 1) i z := by
        rw [homgi]; exact div_nonneg (by linarith) (le_of_lt hDipos)
      have hwi1 : omg t (l + 1) i z ≤ 1 := by
        rw [homgi, div_le_one hDipos]
        have := hmono (by omega : m + 1 ≤ i + (l + 1))
        linarith
      have hwj0 : 0 ≤ omg t (l + 1) (i + 1) z := by
        rw [homgj]; exact div_nonneg (by linarith) (le_of_lt hDjpos)
      have hwj1 : omg t (l + 1) (i + 1) z ≤ 1 := by
        rw [homgj, div_le_one hDjpos]
        have := hmono (by omega : m + 1 ≤ (i + 1) + (l + 1))
        linarith
      have g1 : c (i - 1) z ≤ c i z := by
        have h := Hi (i - 1) (by omega) (by omega) z hz1 hz2
        rwa [show i - 1 + 1 = i by omega] at h
      have g2 : c i z ≤ c (i + 1) z := Hi i (by omega) (by omega) z hz1 hz2
      have hsimp : i + 1 - 1 = i := by omega
      rw [hsimp]
      have p1 : 0 ≤ (1 - omg t (l + 1) i z) * (c i z - c (i - 1) z) :=
        mul_nonneg (by linarith) (by linarith)
      have p2 : 0 ≤ omg t (l + 1) (i + 1) z * (c (i + 1) z - c i z) :=
        mul_nonneg hwj0 (by linarith)
      linarith [p1, p2]

/-! ### Affine invariance of the basis construction

The knots produced for `[x_min, x_max]` are the affine image of the
knots produced for `[0, 1]`, and the Cox-de Boor recursion is invariant
under affine reparameterization of the axis, so every basis value on an
arbitrary domain is the value of the unit-domain basis at
`(x - x_min) / (x_max - x_min)`. -/

lemma coxN_affine (t tu : ℕ → K) (aa d : K) (hd : d ≠ 0)
    (ht : ∀ j, t j = aa + d * tu j) (m : ℕ) :
    ∀ p i u, coxN t m p i (aa + d * u) = coxN tu m p i u := by
  have hcond : ∀ v w : K, (aa + d * v = aa + d * w) = (v = w) := by
    intro v w
    apply propext
    rw [add_right_inj, mul_right_inj' hd]
  have hsub : ∀ v w : K, (aa + d * v) - (aa + d * w) = d * (v - w) := by
    intro v w; ring
  intro p
  induction p with
  | zero => intro i u; rfl
  | succ p ih =>
    intro i u
    rw [coxN_succ_eval, coxN_succ_eval, ih i u, ih (i + 1) u,
      ht (i + p + 1), ht i, ht (i + p + 2), ht (i + 1)]
    simp only [hcond, hsub, mul_div_mul_left _ _ hd]

lemma spanIdx_affine (t tu : ℕ → K) (aa d : K) (hd : 0 < d)
    (ht : ∀ j, t j = aa + d * tu j) (deg N : ℕ) (u : K) :
    spanIdx t deg N (aa + d * u) = spanIdx tu deg N u := by
  unfold spanIdx
  congr 1
  apply congrArg List.length
  apply List.filter_congr
  intro j _
  apply decide_eq_decide.mpr
  rw [ht (deg + 1 + j)]
  constructor
  · intro h
    have h2 := (add_le_add_iff_left aa).mp h
    exact (mul_le_mul_left hd).mp h2
  · intro h
    exact (add_le_add_iff_left aa).mpr ((mul_le_mul_left hd).mpr h)

lemma knotFun_affine (N deg : ℕ) (a b : K) (j : ℕ) :
    knotFun N deg a b j = a + (b - a) * knotFun N deg 0 1 j := by
  rcases le_or_lt j deg with h1 | h1
  · rw [knotFun_low N deg a b j h1, knotFun_low N deg 0 1 j h1]
    ring
  rcases le_or_lt j (deg + nInteriorOf N deg) with h2 | h2
  · have hi : j = deg + 1 + (j - deg - 1) := by omega
    rw [hi, knotFun_interior N deg a b _ (by omega),
      knotFun_interior N deg 0 1 _ (by omega)]
    ring
  · rw [knotFun_high N deg a b j (by omega), knotFun_high N deg 0 1 j (by omega)]
    ring

lemma isplineRaw_affine (nBasis degree : ℕ) (a b : K) (hab : a < b) (j : ℕ) (x : K) :
    isplineRaw nBasis degree a b j x
      = isplineRaw nBasis degree 0 1 j ((x - a) / (b - a)) := by
  have hd : b - a ≠ 0 := sub_ne_zero.mpr (ne_of_gt hab)
  have hdpos : (0 : K) < b - a := sub_pos.mpr hab
  have hx : x = a + (b - a) * ((x - a) / (b - a)) := by field_simp
  have ht : ∀ jj, knotFun (nBasis + 1) degree a b jj
      = a + (b - a) * knotFun (nBasis + 1) degree 0 1 jj :=
    knotFun_affine (nBasis + 1) degree a b
  calc isplineRaw nBasis degree a b j x
      = isplineRaw nBasis degree a b j (a + (b - a) * ((x - a) / (b - a))) := by rw [← hx]
    _ = isplineRaw nBasis degree 0 1 j ((x - a) / (b - a)) := by
        unfold isplineRaw bsplineBasis
        rw [spanIdx_affine _ _ a (b - a) hdpos ht degree (nBasis + 1)]
        exact Finset.sum_congr rfl
          (fun i _ => coxN_affine _ _ a (b - a) hd ht _ degree i _)

lemma normConst_affine (nBasis degree : ℕ) (a b : K) (hab : a < b) (j : ℕ) :
    normConst nBasis degree a b j = normConst nBasis degree 0 1 j := by
  have hd : b - a ≠ 0 := sub_ne_zero.mpr (ne_of_gt hab)
  have h1 : (b - a) / (b - a) = (1 : K) := div_self hd
  unfold normConst
  rw [isplineRaw_affine nBasis degree a b hab j b]
  rw [show (b - a) / (b - a) = (1 : K) from h1]

/-! ### The unit-domain basis of the default configuration

`fit_monotone_spline` defaults to `n_basis = 6, degree = 3`, giving the
B-spline family of `7` functions over the clamped knot vector
`[0,0,0,0, 1/4, 1/2, 3/4, 1,1,1,1]` on the unit domain. -/

lemma unitKnots : bsplineKnots 7 3 (0 : ℝ) 1
    = [0, 0, 0, 0, 1 / 4, 1 / 2, 3 / 4, 1, 1, 1, 1] := by
  norm_num [bsplineKnots, nInteriorOf, linspace, List.range_succ, List.replicate_succ]

lemma unitKnotFun_eq : knotFun 7 3 (0 : ℝ) 1
    = fun j => ([0, 0, 0, 0, 1 / 4, 1 / 2, 3 / 4, 1, 1, 1, 1] : List ℝ).getD j 1 := by
  funext j
  rw [knotFun, unitKnots]

lemma unitKnot_vals :
    knotFun 7 3 (0 : ℝ) 1 3 = 0 ∧ knotFun 7 3 (0 : ℝ) 1 4 = 1 / 4 ∧
    knotFun 7 3 (0 : ℝ) 1 5 = 1 / 2 ∧ knotFun 7 3 (0 : ℝ) 1 6 = 3 / 4 ∧
    knotFun 7 3 (0 : ℝ) 1 7 = 1 := by
  rw [unitKnotFun_eq]
  refine ⟨?_, ?_, ?_, ?_, ?_⟩ <;> simp

lemma unitSpan3 (u : ℝ) (hu : u < 1 / 4) :
    spanIdx (knotFun 7 3 (0 : ℝ) 1) 3 7 u = 3 := by
  have c1 : ¬ ((1 : ℝ) / 4 ≤ u) := not_le.mpr hu
  have c2 : ¬ ((1 : ℝ) / 2 ≤ u) := not_le.mpr (by linarith)
  have c3 : ¬ ((3 : ℝ) / 4 ≤ u) := not_le.mpr (by linarith)
  rw [spanIdx, unitKnotFun_eq]
  norm_num [List.range_succ, List.filter, c1, c2, c3]

lemma unitSpan4 (u : ℝ) (hl : 1 / 4 ≤ u) (hu : u < 1 / 2) :
    spanIdx (knotFun 7 3 (0 : ℝ) 1) 3 7 u = 4 := by
  have c2 : ¬ ((1 : ℝ) / 2 ≤ u) := not_le.mpr hu
  have c3 : ¬ ((3 : ℝ) / 4 ≤ u) := not_le.mpr (by linarith)
  rw [spanIdx, unitKnotFun_eq]
  norm_num [List.range_succ, List.filter, hl, c2, c3]

lemma unitSpan5 (u : ℝ) (hl : 1 / 2 ≤ u) (hu : u < 3 / 4) :
    spanIdx (knotFun 7 3 (0 : ℝ) 1) 3 7 u = 5 := by
  have c1 : (1 : ℝ) / 4 ≤ u := by linarith
  have c3 : ¬ ((3 : ℝ) / 4 ≤ u) := not_le.mpr hu
  rw [spanIdx, unitKnotFun_eq]
  norm_num [List.range_succ, List.filter, c1, hl, c3]

lemma unitSpan6 (u : ℝ) (hl : 3 / 4 ≤ u) :
    spanIdx (knotFun 7 3 (0 : ℝ) 1) 3 7 u = 6 := by
  have c1 : (1 : ℝ) / 4 ≤ u := by linarith
  have c2 : (1 : ℝ) / 2 ≤ u := by linarith
  rw [spanIdx, unitKnotFun_eq]
  norm_num [List.range_succ, List.filter, c1, c2, hl]

lemma unitSpan_lt (m : ℕ) (h3 : 3 ≤ m) (h6 : m ≤ 6) :
    knotFun 7 3 (0 : ℝ) 1 m < knotFun 7 3 (0 : ℝ) 1 (m + 1) := by
  obtain ⟨k3, k4, k5, k6, k7⟩ := unitKnot_vals
  interval_cases m
  · rw [k3, show (3 : ℕ) + 1 = 4 from rfl, k4]; norm_num
  · rw [k4, show (4 : ℕ) + 1 = 5 from rfl, k5]; norm_num
  · rw [k5, show (5 : ℕ) + 1 = 6 from rfl, k6]; norm_num
  · rw [k6, show (6 : ℕ) + 1 = 7 from rfl, k7]; norm_num

lemma unit_sum_bridge (m j : ℕ) (h6 : m ≤ 6) (u : ℝ) :
    ∑ i ∈ Finset.Icc (j + 1) 6, coxN (knotFun 7 3 (0 : ℝ) 1) m 3 i u
      = ∑ i ∈ Finset.range (m + 1),
          (if j + 1 ≤ i then (1 : ℝ) else 0) * coxN (knotFun 7 3 (0 : ℝ) 1) m 3 i u := by
  have hL : ∑ i ∈ Finset.Icc (j + 1) 6, coxN (knotFun 7 3 (0 : ℝ) 1) m 3 i u
      = ∑ i ∈ Finset.range 7,
          (if j + 1 ≤ i then (1 : ℝ) else 0) * coxN (knotFun 7 3 (0 : ℝ) 1) m 3 i u := by
    have hset : Finset.Icc (j + 1) 6
        = (Finset.range 7).filter (fun i => j + 1 ≤ i) := by
      ext i
      simp only [Finset.mem_Icc, Finset.mem_filter, Finset.mem_range]
      omega
    rw [hset, Finset.sum_filter]
    exact Finset.sum_congr rfl (fun i _ => by split_ifs <;> simp)
  rw [hL]
  symm
  apply Finset.sum_subset (Finset.range_subset.mpr (by omega))
  intro i hi7 him
  rw [Finset.mem_range] at hi7
  rw [Finset.mem_range, not_lt] at him
  rw [coxN_eq_zero_of_gt _ m 3 i (by omega) u, mul_zero]

lemma unitF_mono (m j : ℕ) (h3 : 3 ≤ m) (h6 : m ≤ 6) (u v : ℝ)
    (hu : knotFun 7 3 (0 : ℝ) 1 m ≤ u) (huv : u ≤ v)
    (hv : v ≤ knotFun 7 3 (0 : ℝ) 1 (m + 1)) :
    ∑ i ∈ Finset.Icc (j + 1) 6, coxN (knotFun 7 3 (0 : ℝ) 1) m 3 i u
      ≤ ∑ i ∈ Finset.Icc (j + 1) 6, coxN (knotFun 7 3 (0 : ℝ) 1) m 3 i v := by
  rw [unit_sum_bridge m j h6 u, unit_sum_bridge m j h6 v]
  exact deBoor_mono (knotFun 7 3 (0 : ℝ) 1) m
    (knotFun_mono 7 3 0 1 (by norm_num)) (unitSpan_lt m h3 h6) 3 (by omega)
    (fun i _ => if j + 1 ≤ i then (1 : ℝ) else 0)
    (fun i _ _ x y _ _ _ => le_rfl)
    (fun i _ _ x _ _ => by
      show (if j + 1 ≤ i then (1 : ℝ) else 0) ≤ (if j + 1 ≤ i + 1 then (1 : ℝ) else 0)
      split_ifs <;> first | omega | norm_num)
    u v hu huv hv

/-! ### Continuity of the polynomial pieces at the interior knots -/

lemma coxN_cont_quarter (i : ℕ) :
    coxN (knotFun 7 3 (0 : ℝ) 1) 3 3 i (1 / 4)
      = coxN (knotFun 7 3 (0 : ℝ) 1) 4 3 i (1 / 4) := by
  rcases le_or_lt i 6 with hi | hi
  · interval_cases i <;>
      (rw [unitKnotFun_eq];
       norm_num [coxN_three_eval, coxN_two_eval, coxN_one_eval, coxN_zero_eval])
  · rw [coxN_eq_zero_of_gt _ 3 3 i (by omega) _,
      coxN_eq_zero_of_gt _ 4 3 i (by omega) _]

lemma coxN_cont_half (i : ℕ) :
    coxN (knotFun 7 3 (0 : ℝ) 1) 4 3 i (1 / 2)
      = coxN (knotFun 7 3 (0 : ℝ) 1) 5 3 i (1 / 2) := by
  rcases le_or_lt i 6 with hi | hi
  · interval_cases i <;>
      (rw [unitKnotFun_eq];
       norm_num [coxN_three_eval, coxN_two_eval, coxN_one_eval, coxN_zero_eval])
  · rw [coxN_eq_zero_of_gt _ 4 3 i (by omega) _,
      coxN_eq_zero_of_gt _ 5 3 i (by omega) _]

lemma coxN_cont_threequarter (i : ℕ) :
    coxN (knotFun 7 3 (0 : ℝ) 1) 5 3 i (3 / 4)
      = coxN (knotFun 7 3 (0 : ℝ) 1) 6 3 i (3 / 4) := by
  rcases le_or_lt i 6 with hi | hi
  · interval_cases i <;>
      (rw [unitKnotFun_eq];
       norm_num [coxN_three_eval, coxN_two_eval, coxN_one_eval, coxN_zero_eval])
  · rw [coxN_eq_zero_of_gt _ 5 3 i (by omega) _,
      coxN_eq_zero_of_gt _ 6 3 i (by omega) _]

/-! ### Monotonicity of the unit-domain I-spline columns -/

lemma unitRaw_span (j : ℕ) (u : ℝ) :
    isplineRaw 6 3 (0 : ℝ) 1 j u
      = ∑ i ∈ Finset.Icc (j + 1) 6,
          coxN (knotFun 7 3 (0 : ℝ) 1)
            (spanIdx (knotFun 7 3 (0 : ℝ) 1) 3 7 u) 3 i u := rfl

lemma mono_glue {f : ℝ → ℝ} {aa mid bb : ℝ}
    (h1 : ∀ u v, aa ≤ u → u ≤ v → v ≤ mid → f u ≤ f v)
    (h2 : ∀ u v, mid ≤ u → u ≤ v → v ≤ bb → f u ≤ f v) :
    ∀ u v, aa ≤ u → u ≤ v → v ≤ bb → f u ≤ f v := by
  intro u v hu huv hv
  rcases le_total v mid with h | h
  · exact h1 u v hu huv h
  rcases le_total u mid with h3 | h3
  · exact le_trans (h1 u mid hu h3 le_rfl) (h2 mid v le_rfl h hv)
  · exact h2 u v h3 huv hv

lemma unitRaw_mono_piece1 (j : ℕ) :
    ∀ u v : ℝ, 0 ≤ u → u ≤ v → v ≤ 1 / 4 →
      isplineRaw 6 3 (0 : ℝ) 1 j u ≤ isplineRaw 6 3 (0 : ℝ) 1 j v := by
  obtain ⟨k3, k4, k5, k6, k7⟩ := unitKnot_vals
  intro u v hu huv hv
  rcases lt_or_eq_of_le hv with hv4 | hv4
  · rw [unitRaw_span j u, unitRaw_span j v,
      unitSpan3 u (lt_of_le_of_lt huv hv4), unitSpan3 v hv4]
    exact unitF_mono 3 j (by norm_num) (by norm_num) u v
      (by rw [k3]; exact hu) huv
      (by rw [show (3 : ℕ) + 1 = 4 from rfl, k4]; linarith)
  · have hu14 : u ≤ 1 / 4 := by rw [← hv4]; exact huv
    rcases lt_or_eq_of_le hu14 with hu4 | hu4
    · rw [unitRaw_span j u, unitRaw_span j v, unitSpan3 u hu4, hv4,
        unitSpan4 (1 / 4) le_rfl (by norm_num)]
      have hc : ∑ i ∈ Finset.Icc (j + 1) 6,
            coxN (knotFun 7 3 (0 : ℝ) 1) 4 3 i ((1 : ℝ) / 4)
          = ∑ i ∈ Finset.Icc (j + 1) 6,
            coxN (knotFun 7 3 (0 : ℝ) 1) 3 3 i ((1 : ℝ) / 4) :=
        Finset.sum_congr rfl (fun i _ => (coxN_cont_quarter i).symm)
      rw [hc]
      exact unitF_mono 3 j (by norm_num) (by norm_num) u (1 / 4)
        (by rw [k3]; exact hu) (le_of_lt hu4)
        (by rw [show (3 : ℕ) + 1 = 4 from rfl, k4])
    · rw [hu4, hv4]

lemma unitRaw_mono_piece2 (j : ℕ) :
    ∀ u v : ℝ, 1 / 4 ≤ u → u ≤ v → v ≤ 1 / 2 →
      isplineRaw 6 3 (0 : ℝ) 1 j u ≤ isplineRaw 6 3 (0 : ℝ) 1 j v := by
  obtain ⟨k3, k4, k5, k6, k7⟩ := unitKnot_vals
  intro u v hu huv hv
  rcases lt_or_eq_of_le hv with hv4 | hv4
  · rw [unitRaw_span j u, unitRaw_span j v,
      unitSpan4 u hu (lt_of_le_of_lt huv hv4), unitSpan4 v (le_trans hu huv) hv4]
    exact unitF_mono 4 j (by norm_num) (by norm_num) u v
      (by rw [k4]; exact hu) huv
      (by rw [show (4 : ℕ) + 1 = 5 from rfl, k5]; linarith)
  · have hu14 : u ≤ 1 / 2 := by rw [← hv4]; exact huv
    rcases lt_or_eq_of_le hu14 with hu4 | hu4
    · rw [unitRaw_span j u, unitRaw_span j v, unitSpan4 u hu hu4, hv4,
        unitSpan5 (1 / 2) le_rfl (by norm_num)]
      have hc : ∑ i ∈ Finset.Icc (j + 1) 6,
            coxN (knotFun 7 3 (0 : ℝ) 1) 5 3 i ((1 : ℝ) / 2)
          = ∑ i ∈ Finset.Icc (j + 1) 6,
            coxN (knotFun 7 3 (0 : ℝ) 1) 4 3 i ((1 : ℝ) / 2) :=
        Finset.sum_congr rfl (fun i _ => (coxN_cont_half i).symm)
      rw [hc]
      exact unitF_mono 4 j (by norm_num) (by norm_num) u (1 / 2)
        (by rw [k4]; exact hu) (le_of_lt hu4)
        (by rw [show (4 : ℕ) + 1 = 5 from rfl, k5])
    · rw [hu4, hv4]

lemma unitRaw_mono_piece3 (j : ℕ) :
    ∀ u v : ℝ, 1 / 2 ≤ u → u ≤ v → v ≤ 3 / 4 →
      isplineRaw 6 3 (0 : ℝ) 1 j u ≤ isplineRaw 6 3 (0 : ℝ) 1 j v := by
  obtain ⟨k3, k4, k5, k6, k7⟩ := unitKnot_vals
  intro u v hu huv hv
  rcases lt_or_eq_of_le hv with hv4 | hv4
  · rw [unitRaw_span j u, unitRaw_span j v,
      unitSpan5 u hu (lt_of_le_of_lt huv hv4), unitSpan5 v (le_trans hu huv) hv4]
    exact unitF_mono 5 j (by norm_num) (by norm_num) u v
      (by rw [k5]; exact hu) huv
      (by rw [show (5 : ℕ) + 1 = 6 from rfl, k6]; linarith)
  · have hu14 : u ≤ 3 / 4 := by rw [← hv4]; exact huv
    rcases lt_or_eq_of_le hu14 with hu4 | hu4
    · rw [unitRaw_span j u, unitRaw_span j v, unitSpan5 u hu hu4, hv4,
        unitSpan6 (3 / 4) le_rfl]
      have hc : ∑ i ∈ Finset.Icc (j + 1) 6,
            coxN (knotFun 7 3 (0 : ℝ) 1) 6 3 i ((3 : ℝ) / 4)
          = ∑ i ∈ Finset.Icc (j + 1) 6,
            coxN (knotFun 7 3 (0 : ℝ) 1) 5 3 i ((3 : ℝ) / 4) :=
        Finset.sum_congr rfl (fun i _ => (coxN_cont_threequarter i).symm)
      rw [hc]
      exact unitF_mono 5 j (by norm_num) (by norm_num) u (3 / 4)
        (by rw [k5]; exact hu) (le_of_lt hu4)
        (by rw [show (5 : ℕ) + 1 = 6 from rfl, k6])
    · rw [hu4, hv4]

lemma unitRaw_mono_piece4 (j : ℕ) :
    ∀ u v : ℝ, 3 / 4 ≤ u → u ≤ v → v ≤ 1 →
      isplineRaw 6 3 (0 : ℝ) 1 j u ≤ isplineRaw 6 3 (0 : ℝ) 1 j v := by
  obtain ⟨k3, k4, k5, k6, k7⟩ := unitKnot_vals
  intro u v hu huv hv
  rw [unitRaw_span j u, unitRaw_span j v,
    unitSpan6 u hu, unitSpan6 v (le_trans hu huv)]
  exact unitF_mono 6 j (by norm_num) (by norm_num) u v
    (by rw [k6]; exact hu) huv
    (by rw [show (6 : ℕ) + 1 = 7 from rfl, k7]; exact hv)

lemma unitRaw_mono (j : ℕ) :
    ∀ u v : ℝ, 0 ≤ u → u ≤ v → v ≤ 1 →
      isplineRaw 6 3 (0 : ℝ) 1 j u ≤ isplineRaw 6 3 (0 : ℝ) 1 j v :=
  mono_glue (unitRaw_mono_piece1 j)
    (mono_glue (unitRaw_mono_piece2 j)
      (mono_glue (unitRaw_mono_piece3 j) (unitRaw_mono_piece4 j)))

/-! ### The fitted curve is monotone (claim C1) -/

lemma isplineBasis_mono_default (a b : ℝ) (hab : a < b) (j : ℕ) (hj : j < 6)
    (x1 x2 : ℝ) (h1 : a ≤ x1) (h12 : x1 ≤ x2) (h2 : x2 ≤ b) :
    isplineBasis 6 3 a b j x1 ≤ isplineBasis 6 3 a b j x2 := by
  have hba : (0 : ℝ) < b - a := by linarith
  rw [isplineBasis, isplineBasis,
    normConst_eq_one 6 3 a b (by norm_num) hab j hj, div_one, div_one,
    isplineRaw_affine 6 3 a b hab j x1, isplineRaw_affine 6 3 a b hab j x2]
  exact unitRaw_mono j ((x1 - a) / (b - a)) ((x2 - a) / (b - a))
    (div_nonneg (by linarith) (le_of_lt hba))
    ((div_le_div_right hba).mpr (by linarith))
    ((div_le_one hba).mpr (by linarith))

lemma softplus_nonneg (tv : ℝ) : 0 ≤ softplus tv := by
  unfold softplus
  have h := Real.exp_pos tv
  exact le_of_lt (Real.log_pos (by linarith))

lemma softplus_coef_nonneg (raws : List ℝ) (j : ℕ) :
    0 ≤ (raws.map softplus).getD j 0 := by
  rcases lt_or_le j (raws.map softplus).length with h | h
  · rw [List.getD_eq_getElem _ _ h]
    rw [List.getElem_map]
    exact softplus_nonneg _
  · rw [List.getD_eq_default _ _ h]

/-- C1: every curve returned by `fit_monotone_spline` at its default
basis configuration (`n_basis = 6, degree = 3`), for any data, weights,
optional anchor and any domain `x_min < x_max`, is monotonically
non-decreasing on `[x_min, x_max]`: the softplus reparameterization
makes every coefficient nonnegative (indeed strictly positive), every
normalized I-spline column is non-decreasing on the domain, so for all
`x1 ≤ x2` in the domain `evaluate(x1) ≤ evaluate(x2) + 1e-10` (in fact
`evaluate(x1) ≤ evaluate(x2)` exactly). -/
theorem C1_fitted_curve_monotone (raws : List ℝ) (intercept a b x1 x2 : ℝ)
    (hab : a < b) (h1 : a ≤ x1) (h12 : x1 ≤ x2) (h2 : x2 ≤ b) :
    evalMonotoneSpline (fitParams 6 3 a b (raws.map softplus) intercept) x1
      ≤ evalMonotoneSpline (fitParams 6 3 a b (raws.map softplus) intercept) x2
        + 1e-10 := by
  have key : evalMonotoneSpline (fitParams 6 3 a b (raws.map softplus) intercept) x1
      ≤ evalMonotoneSpline (fitParams 6 3 a b (raws.map softplus) intercept) x2 := by
    unfold evalMonotoneSpline fitParams
    simp only []
    apply add_le_add_left
    apply Finset.sum_le_sum
    intro j hj
    rw [Finset.mem_range] at hj
    exact mul_le_mul_of_nonneg_left
      (isplineBasis_mono_default a b hab j hj x1 x2 h1 h12 h2)
      (softplus_coef_nonneg raws j)
  have heps : (0 : ℝ) < 1e-10 := by norm_num
  linarith

/-- Witness for C1 at the unit domain with all-zero raw parameters. -/
theorem C1_fitted_curve_monotone_witness :
    ((0 : ℝ) < 1 ∧ (0 : ℝ) ≤ 0 ∧ (0 : ℝ) ≤ 1 ∧ (1 : ℝ) ≤ 1) ∧
    evalMonotoneSpline (fitParams 6 3 0 1 (([0, 0, 0, 0, 0, 0] : List ℝ).map softplus) 0) 0
      ≤ evalMonotoneSpline (fitParams 6 3 0 1 (([0, 0, 0, 0, 0, 0] : List ℝ).map softplus) 0) 1
        + 1e-10 :=
  ⟨⟨by norm_num, le_rfl, by norm_num, le_rfl⟩,
    C1_fitted_curve_monotone [0, 0, 0, 0, 0, 0] 0 0 1 0 1
      (by norm_num) le_rfl (by norm_num) le_rfl⟩

end Medadmit
